import Mathlib

/-!
Verification of the session/game-state layer of the `top-site/chess3`
web chess application (`src/app.py`).

The Python source delegates chess rule enforcement to the external
`python-chess` library (`chess.Board`, `chess.Move`); the spec (section 6)
treats that library as an external collaborator with a narrow contract.
The first part of this file is a computable Lean model of the slice of
that collaborator actually used by `app.py`: board state (piece placement,
side to move, castling rights, en-passant square, clocks), the move stack,
move legality, push/pop, SAN rendering, FEN printing and FEN parsing.
The second part embeds the `ChessGame` session class and the module-level
request handlers of `app.py` themselves, and the theorems at the end settle
the frozen claims about them.

Conventions, following `python-chess`:
- a color is a `Bool`, `true` = white (`chess.WHITE = True`);
- a square index is `rank * 8 + file` with `a1 = 0`, `h8 = 63`
  (`chess.square(file, rank) = rank * 8 + file`);
- `Move` keeps the raw (unvalidated) integer squares, exactly as
  `chess.Move` keeps whatever integers it was handed.
-/

namespace Chess3

/-- Piece kinds, as in `chess.PAWN .. chess.KING`. -/
inductive PieceKind : Type
  | pawn | knight | bishop | rook | queen | king
deriving DecidableEq, BEq, Repr

/-- A colored piece (`chess.Piece`): `color = true` is white. -/
structure CPiece : Type where
  color : Bool
  kind : PieceKind
deriving DecidableEq, BEq, Repr

/-- A move as `chess.Move`: raw integer squares plus an optional promotion
piece kind.  No validation happens at construction time. -/
structure Move : Type where
  fromSq : Int
  toSq : Int
  promo : Option PieceKind
deriving DecidableEq, BEq, Repr

/-- The board state proper, i.e. the part of `chess.Board` that a FEN
records: placement (64 squares, index `rank*8+file`), side to move,
the four castling rights, en-passant square, halfmove clock and
fullmove number. -/
structure BoardCore : Type where
  placement : List (Option CPiece)
  turn : Bool
  castleWK : Bool
  castleWQ : Bool
  castleBK : Bool
  castleBQ : Bool
  epSquare : Option Nat
  halfmove : Nat
  fullmove : Nat
deriving DecidableEq, BEq, Repr

/-- `chess.Board` = the current core state plus the move stack.
`python-chess` keeps two parallel stacks (`move_stack` and the private
`_stack` of saved board states) that are always pushed and popped
together; we model the pair as one list, newest entry first.  Each entry
holds the move pushed and the core state as it was just before that
push (which is what `Board.pop` restores). -/
structure Board : Type where
  core : BoardCore
  stack : List (Move × BoardCore)
deriving DecidableEq, Repr

/-- `chess.square(file, rank)`: plain integer arithmetic, no validation
(exactly as in Python, so out-of-range coordinates can alias onto real
squares, e.g. `file=9, rank=0 ↦ 9 = b2`). -/
def squareOfPair (p : Int × Int) : Int := p.2 * 8 + p.1

/-- File index of an (in-range) square; `chess.square_file`. -/
def fI (sq : Int) : Int := (sq.toNat % 8 : Nat)

/-- Rank index of an (in-range) square; `chess.square_rank`. -/
def rI (sq : Int) : Int := (sq.toNat / 8 : Nat)

/-- Piece at a raw integer square; `none` when the square is off the
board (python-chess would raise an `IndexError` there, which `app.py`
catches and turns into a failed request). -/
def pieceAt (b : BoardCore) (sq : Int) : Option CPiece :=
  if 0 ≤ sq ∧ sq < 64 then b.placement.getD sq.toNat none else none

/-- Piece at file/rank coordinates of a placement list. -/
def pAt (pl : List (Option CPiece)) (f r : Int) : Option CPiece :=
  if 0 ≤ f ∧ f ≤ 7 ∧ 0 ≤ r ∧ r ≤ 7 then pl.getD (r.toNat * 8 + f.toNat) none else none

/-- Knight move offsets. -/
def knightOffsets : List (Int × Int) :=
  [(1, 2), (2, 1), (2, -1), (1, -2), (-1, -2), (-2, -1), (-2, 1), (-1, 2)]

/-- King move offsets. -/
def kingOffsets : List (Int × Int) :=
  [(1, 0), (1, 1), (0, 1), (-1, 1), (-1, 0), (-1, -1), (0, -1), (1, -1)]

/-- Orthogonal ray directions (rook/queen). -/
def orthoDirs : List (Int × Int) := [(1, 0), (-1, 0), (0, 1), (0, -1)]

/-- Diagonal ray directions (bishop/queen). -/
def diagDirs : List (Int × Int) := [(1, 1), (1, -1), (-1, 1), (-1, -1)]

/-- Walk from `(f, r)` in direction `(df, dr)` and return the first piece
met, scanning at most `n` steps (7 suffices on an 8×8 board). -/
def scanDir (pl : List (Option CPiece)) : Nat → Int → Int → Int → Int → Option CPiece
  | 0, _, _, _, _ => none
  | n + 1, f, r, df, dr =>
    let f' := f + df
    let r' := r + dr
    if f' < 0 ∨ 7 < f' ∨ r' < 0 ∨ 7 < r' then none
    else match pAt pl f' r' with
      | some p => some p
      | none => scanDir pl n f' r' df dr

/-- Is the square `(f, r)` attacked by a piece of color `c`?
(`chess.Board.is_attacked_by`.) -/
def attackedP (pl : List (Option CPiece)) (c : Bool) (f r : Int) : Bool :=
  let d : Int := if c then 1 else -1
  -- pawns attack diagonally forward, so an attacking pawn sits one rank behind
  (pAt pl (f - 1) (r - d) == some ⟨c, .pawn⟩) ||
  (pAt pl (f + 1) (r - d) == some ⟨c, .pawn⟩) ||
  knightOffsets.any (fun o => pAt pl (f + o.1) (r + o.2) == some ⟨c, .knight⟩) ||
  kingOffsets.any (fun o => pAt pl (f + o.1) (r + o.2) == some ⟨c, .king⟩) ||
  orthoDirs.any (fun o =>
    match scanDir pl 7 f r o.1 o.2 with
    | some p => p.color == c && (p.kind == .rook || p.kind == .queen)
    | none => false) ||
  diagDirs.any (fun o =>
    match scanDir pl 7 f r o.1 o.2 with
    | some p => p.color == c && (p.kind == .bishop || p.kind == .queen)
    | none => false)

/-- Attack test addressed by square index. -/
def attackedOnSq (pl : List (Option CPiece)) (c : Bool) (sq : Nat) : Bool :=
  attackedP pl c ((sq % 8 : Nat) : Int) ((sq / 8 : Nat) : Int)

/-- Square index of the king of color `c`, if present
(`chess.Board.king`; `python-chess` tolerates king-less positions). -/
def kingSqP (pl : List (Option CPiece)) (c : Bool) : Option Nat :=
  (List.range 64).find? (fun i => pl.getD i none == some ⟨c, .king⟩)

/-- Are all squares strictly between `(ff, fr)` and `(tf, tr)` empty?
Used for sliding-piece moves. -/
def clearPath (pl : List (Option CPiece)) (ff fr tf tr : Int) : Bool :=
  let df := (tf - ff).sign
  let dr := (tr - fr).sign
  let steps := max (tf - ff).natAbs (tr - fr).natAbs
  (List.range steps).all fun k =>
    k == 0 || (pAt pl (ff + df * (k : Int)) (fr + dr * (k : Int))).isNone

/-- The placement after carrying out `m` on `b`: moves (and possibly
promotes) the piece, removes an en-passant-captured pawn, and relocates
the rook of a castling king move.  (The placement-update part of
`chess.Board.push`.) -/
def movedPlacement (b : BoardCore) (m : Move) : List (Option CPiece) :=
  match pieceAt b m.fromSq with
  | none => b.placement
  | some p =>
    let frn := m.fromSq.toNat
    let ton := m.toSq.toNat
    let placed : CPiece := match m.promo with
      | some k => ⟨p.color, k⟩
      | none => p
    let base := (b.placement.set frn none).set ton (some placed)
    let ff := fI m.fromSq
    let tf := fI m.toSq
    if p.kind == .pawn && b.epSquare == some ton && (tf - ff).natAbs == 1
        && (pieceAt b m.toSq).isNone then
      -- en passant: the captured pawn stands behind the target square
      base.set (if p.color then ton - 8 else ton + 8) none
    else if p.kind == .king && 1 < (tf - ff).natAbs then
      -- castling: relocate the rook next to the king
      if ff < tf then (base.set (frn + 3) none).set (frn + 1) (some ⟨p.color, .rook⟩)
      else (base.set (frn - 4) none).set (frn - 1) (some ⟨p.color, .rook⟩)
    else base

/-- Would carrying out `m` leave the mover's own king attacked?
(`chess.Board.is_into_check`; a position without a king of the moving
color is never "into check", as in `python-chess`.) -/
def intoCheck (b : BoardCore) (m : Move) : Bool :=
  let pl := movedPlacement b m
  match kingSqP pl b.turn with
  | none => false
  | some k => attackedOnSq pl (!b.turn) k

/-- Pseudo-legality of a non-castling move whose origin piece is `p`
(already known to sit on `m.fromSq` and to have the moving color):
target on the board and not occupied by the mover, movement pattern of
the piece kind respected, promotions exactly on pawn moves to the last
rank.  Mirrors `chess.Board.is_pseudo_legal` / the pseudo-legal move
generator. -/
def pseudoNormal (b : BoardCore) (p : CPiece) (m : Move) : Bool :=
  let pl := b.placement
  if m.toSq < 0 ∨ 63 < m.toSq then false else
  let ff := fI m.fromSq
  let fr := rI m.fromSq
  let tf := fI m.toSq
  let tr := rI m.toSq
  let destOwn := match pAt pl tf tr with
    | some q => q.color == b.turn
    | none => false
  if destOwn then false else
  match p.kind with
  | .pawn =>
    let d : Int := if b.turn then 1 else -1
    let startR : Int := if b.turn then 1 else 6
    let lastR : Int := if b.turn then 7 else 0
    let promoOk :=
      if tr == lastR then
        match m.promo with
        | some k => k != .pawn && k != .king
        | none => false
      else m.promo == none
    promoOk &&
      ((tf == ff && tr == fr + d && (pAt pl tf tr).isNone) ||
       (tf == ff && fr == startR && tr == fr + 2 * d && (pAt pl tf (fr + d)).isNone
         && (pAt pl tf tr).isNone) ||
       ((tf - ff).natAbs == 1 && tr == fr + d &&
         ((pAt pl tf tr).isSome || b.epSquare == some m.toSq.toNat)))
  | .knight =>
    m.promo == none &&
      ((tf - ff).natAbs == 1 && (tr - fr).natAbs == 2 ||
       (tf - ff).natAbs == 2 && (tr - fr).natAbs == 1)
  | .bishop =>
    m.promo == none && (tf - ff).natAbs == (tr - fr).natAbs && (tf != ff)
      && clearPath pl ff fr tf tr
  | .rook =>
    m.promo == none && ((tf == ff) != (tr == fr)) && clearPath pl ff fr tf tr
  | .queen =>
    m.promo == none &&
      ((tf - ff).natAbs == (tr - fr).natAbs && (tf != ff) ||
       ((tf == ff) != (tr == fr))) &&
      clearPath pl ff fr tf tr
  | .king =>
    m.promo == none && (tf - ff).natAbs ≤ 1 && (tr - fr).natAbs ≤ 1
      && !(tf == ff && tr == fr)

/-- Legality of the four concrete castling moves (the standard-chess
case of `python-chess`'s castling generation): the right must be held,
the rook in its corner, the path empty, and the king may not castle out
of, through, or into check. -/
def legalCastle (b : BoardCore) (m : Move) : Bool :=
  let pl := b.placement
  m.promo == none &&
  (if b.turn then
    if m.fromSq == 4 && m.toSq == 6 then
      b.castleWK && (pl.getD 5 none).isNone && (pl.getD 6 none).isNone &&
        pl.getD 7 none == some ⟨true, .rook⟩ &&
        !attackedOnSq pl false 4 && !attackedOnSq pl false 5 && !attackedOnSq pl false 6
    else if m.fromSq == 4 && m.toSq == 2 then
      b.castleWQ && (pl.getD 1 none).isNone && (pl.getD 2 none).isNone &&
        (pl.getD 3 none).isNone && pl.getD 0 none == some ⟨true, .rook⟩ &&
        !attackedOnSq pl false 4 && !attackedOnSq pl false 3 && !attackedOnSq pl false 2
    else false
  else
    if m.fromSq == 60 && m.toSq == 62 then
      b.castleBK && (pl.getD 61 none).isNone && (pl.getD 62 none).isNone &&
        pl.getD 63 none == some ⟨false, .rook⟩ &&
        !attackedOnSq pl true 60 && !attackedOnSq pl true 61 && !attackedOnSq pl true 62
    else if m.fromSq == 60 && m.toSq == 58 then
      b.castleBQ && (pl.getD 57 none).isNone && (pl.getD 58 none).isNone &&
        (pl.getD 59 none).isNone && pl.getD 56 none == some ⟨false, .rook⟩ &&
        !attackedOnSq pl true 60 && !attackedOnSq pl true 59 && !attackedOnSq pl true 58
    else false)

/-- Full legality of a move, i.e. membership in `board.legal_moves`
(`chess.Board.is_legal`, which is what the generator's `__contains__`
evaluates): a piece of the side to move on the origin, then either a
legal castling king move or a pseudo-legal move that does not leave the
own king in check. -/
def isLegal (b : BoardCore) (m : Move) : Bool :=
  match pieceAt b m.fromSq with
  | none => false
  | some p =>
    if p.color != b.turn then false
    else if p.kind == .king && 1 < (fI m.toSq - fI m.fromSq).natAbs then legalCastle b m
    else pseudoNormal b p m && !intoCheck b m

/-- The core state after pushing move `m` (the state-update part of
`chess.Board.push`): placement updated, turn flipped, castling rights
dropped when a king moves or a corner square is touched, en-passant
square set on double pawn pushes and cleared otherwise, halfmove clock
reset on pawn moves and captures, fullmove number bumped after Black's
move.  (`push` is only ever reached through the legality check in
`make_move`, so the origin square always holds a piece.) -/
def pushCore (b : BoardCore) (m : Move) : BoardCore :=
  match pieceAt b m.fromSq with
  | none => b
  | some p =>
    let frn := m.fromSq.toNat
    let ton := m.toSq.toNat
    let ff := fI m.fromSq
    let fr := rI m.fromSq
    let tf := fI m.toSq
    let tr := rI m.toSq
    let isEp := p.kind == .pawn && b.epSquare == some ton && (tf - ff).natAbs == 1
      && (pieceAt b m.toSq).isNone
    let capture := (pieceAt b m.toSq).isSome || isEp
    let kingMove := p.kind == .king
    { placement := movedPlacement b m
      turn := !b.turn
      castleWK := b.castleWK && !(kingMove && p.color) && frn != 7 && ton != 7
      castleWQ := b.castleWQ && !(kingMove && p.color) && frn != 0 && ton != 0
      castleBK := b.castleBK && !(kingMove && !p.color) && frn != 63 && ton != 63
      castleBQ := b.castleBQ && !(kingMove && !p.color) && frn != 56 && ton != 56
      epSquare := if p.kind == .pawn && (tr - fr).natAbs == 2
        then some ((frn + ton) / 2) else none
      halfmove := if p.kind == .pawn || capture then 0 else b.halfmove + 1
      fullmove := if b.turn then b.fullmove else b.fullmove + 1 }

/-- `chess.Board.push`: save the pre-move core together with the move,
then advance the core. -/
def pushBoard (bd : Board) (m : Move) : Board :=
  ⟨pushCore bd.core m, (m, bd.core) :: bd.stack⟩

/-- Is the side to move in check? (`chess.Board.is_check`.) -/
def inCheck (b : BoardCore) : Bool :=
  match kingSqP b.placement b.turn with
  | none => false
  | some k => attackedOnSq b.placement (!b.turn) k

/-- Does the side to move have any legal move?  It is enough to try,
for every origin/target pair, the move without promotion plus the queen
promotion when a pawn reaches the last rank: when any promotion of a
pawn move is legal the queen promotion is (the opponent's attacks do
not depend on which piece kind appears), so underpromotions need not be
enumerated. -/
def anyLegalMove (b : BoardCore) : Bool :=
  (List.range 64).any fun fr =>
    match b.placement.getD fr none with
    | some p =>
      p.color == b.turn &&
        (List.range 64).any fun t =>
          isLegal b ⟨(fr : Int), (t : Int), none⟩ ||
          (p.kind == .pawn && (if b.turn then t / 8 == 7 else t / 8 == 0) &&
            isLegal b ⟨(fr : Int), (t : Int), some .queen⟩)
    | none => false

/-- `chess.Board.is_checkmate`. -/
def isCheckmateCore (b : BoardCore) : Bool := inCheck b && !anyLegalMove b

/-- `chess.Board.is_stalemate`. -/
def isStalemateCore (b : BoardCore) : Bool := !inCheck b && !anyLegalMove b

/-- The piece kinds of color `c` on the board (kings included). -/
def piecesOf (b : BoardCore) (c : Bool) : List PieceKind :=
  (List.range 64).filterMap fun i =>
    match b.placement.getD i none with
    | some p => if p.color == c then some p.kind else none
    | none => none

/-- `chess.Board.has_insufficient_material(color)`: `color` cannot mate.
No pawn/rook/queen; with a knight, at most king+knight against a bare
king (possibly with queens); with bishops, all bishops on the board on
one square color and no pawns or knights anywhere. -/
def hasInsufficient (b : BoardCore) (c : Bool) : Bool :=
  let mine := piecesOf b c
  if mine.any (fun k => k == .pawn || k == .rook || k == .queen) then false
  else if mine.any (fun k => k == .knight) then
    decide (mine.length ≤ 2) &&
      !(piecesOf b (!c)).any (fun k => !(k == .king || k == .queen))
  else if mine.any (fun k => k == .bishop) then
    let bishopSqs := (List.range 64).filter fun i =>
      match b.placement.getD i none with
      | some p => p.kind == .bishop
      | none => false
    (bishopSqs.all (fun i => (i % 8 + i / 8) % 2 == 0) ||
     bishopSqs.all (fun i => (i % 8 + i / 8) % 2 == 1)) &&
    !(piecesOf b true ++ piecesOf b false).any (fun k => k == .pawn || k == .knight)
  else true

/-- `chess.Board.is_insufficient_material`. -/
def isInsufficientMaterial (b : BoardCore) : Bool :=
  hasInsufficient b true && hasInsufficient b false

/-- `chess.Board.is_seventyfive_moves`: the halfmove clock has reached
150 plies while legal moves remain (mate/stalemate take precedence). -/
def isSeventyFive (b : BoardCore) : Bool :=
  decide (150 ≤ b.halfmove) && anyLegalMove b

/-- Is a legal en-passant capture available?
(`chess.Board.has_legal_en_passant`.) -/
def hasLegalEp (b : BoardCore) : Bool :=
  match b.epSquare with
  | some e =>
    let d : Int := if b.turn then 1 else -1
    let ef : Int := (e % 8 : Nat)
    let er : Int := (e / 8 : Nat)
    isLegal b ⟨(er - d) * 8 + (ef - 1), (e : Int), none⟩ ||
    isLegal b ⟨(er - d) * 8 + (ef + 1), (e : Int), none⟩
  | none => false

/-- Transposition key of a position (`chess.Board._transposition_key`):
placement, turn, castling rights, and the en-passant square only when a
legal en-passant capture exists. -/
def transKey (b : BoardCore) :
    List (Option CPiece) × Bool × Bool × Bool × Bool × Bool × Option Nat :=
  (b.placement, b.turn, b.castleWK, b.castleWQ, b.castleBK, b.castleBQ,
    if hasLegalEp b then b.epSquare else none)

/-- `chess.Board.is_fivefold_repetition`: the current position occurred
at least five times in the game, i.e. at least four times among the
saved predecessor states. -/
def isFivefold (bd : Board) : Bool :=
  decide (4 ≤ bd.stack.countP fun pc => transKey pc.2 == transKey bd.core)

/-- `chess.Board.is_game_over()` (with `claim_draw=False`, which is how
`app.py` calls it): checkmate, stalemate, insufficient material, the
seventy-five-move rule, or fivefold repetition. -/
def isGameOver (bd : Board) : Bool :=
  isCheckmateCore bd.core || isStalemateCore bd.core ||
    isInsufficientMaterial bd.core || isSeventyFive bd.core || isFivefold bd

/-- Lowercase FEN letter of a piece kind. -/
def kindChar : PieceKind → Char
  | .pawn => 'p'
  | .knight => 'n'
  | .bishop => 'b'
  | .rook => 'r'
  | .queen => 'q'
  | .king => 'k'

/-- FEN character of a colored piece (uppercase = white). -/
def pieceFenChar (p : CPiece) : Char :=
  if p.color then (kindChar p.kind).toUpper else kindChar p.kind

/-- Uppercase SAN letter of a piece kind (empty for pawns). -/
def pieceLetter : PieceKind → String
  | .pawn => ""
  | .knight => "N"
  | .bishop => "B"
  | .rook => "R"
  | .queen => "Q"
  | .king => "K"

/-- Name of file index `f` (`a` .. `h`). -/
def fileName (f : Int) : String := String.singleton (Char.ofNat ('a'.toNat + f.toNat))

/-- Name of rank index `r` (`1` .. `8`). -/
def rankName (r : Int) : String := String.singleton (Char.ofNat ('1'.toNat + r.toNat))

/-- `chess.SQUARE_NAMES[sq]`, e.g. `e4`. -/
def squareName (sq : Nat) : String :=
  fileName ((sq % 8 : Nat) : Int) ++ rankName ((sq / 8 : Nat) : Int)

/-- One FEN rank: pieces interleaved with run lengths of empty squares. -/
def fenRow (pl : List (Option CPiece)) (r : Nat) : String :=
  let step := fun (s : String × Nat) (f : Nat) =>
    match pl.getD (r * 8 + f) none with
    | none => (s.1, s.2 + 1)
    | some p =>
      (s.1 ++ (if s.2 == 0 then "" else toString s.2) ++ String.singleton (pieceFenChar p), 0)
  let fin := (List.range 8).foldl step ("", 0)
  fin.1 ++ (if fin.2 == 0 then "" else toString fin.2)

/-- The FEN of a position, as `chess.Board.fen()` produces it: placement
from rank 8 down, side to move, castling rights in `KQkq` order (or
`-`), the en-passant square only when a legal en-passant capture exists
(python-chess's default `en_passant="legal"`), halfmove clock, fullmove
number. -/
def fenOf (b : BoardCore) : String :=
  let boardPart := String.intercalate "/" (((List.range 8).reverse).map (fenRow b.placement))
  let castlePart :=
    (if b.castleWK then "K" else "") ++ (if b.castleWQ then "Q" else "") ++
    (if b.castleBK then "k" else "") ++ (if b.castleBQ then "q" else "")
  boardPart ++ " " ++ (if b.turn then "w" else "b") ++ " " ++
    (if castlePart == "" then "-" else castlePart) ++ " " ++
    (if hasLegalEp b then
      match b.epSquare with
      | some e => squareName e
      | none => "-"
     else "-") ++ " " ++
    toString b.halfmove ++ " " ++ toString b.fullmove

/-- SAN of a (legal) move in a position, before it is pushed
(`chess.Board.san`): castling as `O-O`/`O-O-O`; pawn moves as the
target square, prefixed by the origin file and `x` on captures and
suffixed by `=Q`-style promotions; piece moves as the piece letter, a
file/rank disambiguator when another piece of the same kind could
legally reach the target, `x` on captures, and the target square; a
check suffix `+`/`#` computed on the resulting position. -/
def sanOf (b : BoardCore) (m : Move) : String :=
  let body :=
    match pieceAt b m.fromSq with
    | none => "--"
    | some p =>
      let ff := fI m.fromSq
      let tf := fI m.toSq
      if p.kind == .king && 1 < (tf - ff).natAbs then
        if ff < tf then "O-O" else "O-O-O"
      else
        let frn := m.fromSq.toNat
        let ton := m.toSq.toNat
        let isEp := p.kind == .pawn && b.epSquare == some ton && (tf - ff).natAbs == 1
          && (pieceAt b m.toSq).isNone
        let capture := (pieceAt b m.toSq).isSome || isEp
        let promoStr := match m.promo with
          | some k => "=" ++ pieceLetter k
          | none => ""
        if p.kind == .pawn then
          (if capture then fileName ff ++ "x" else "") ++ squareName ton ++ promoStr
        else
          let others := (List.range 64).filter fun s =>
            s != frn && b.placement.getD s none == some p &&
              isLegal b ⟨(s : Int), m.toSq, none⟩
          let disamb :=
            if others.isEmpty then ""
            else
              let sameRank := others.any fun s => s / 8 == frn / 8
              let sameFile := others.any fun s => s % 8 == frn % 8
              (if sameRank || !sameFile then fileName ff else "") ++
              (if sameFile then rankName (rI m.fromSq) else "")
          pieceLetter p.kind ++ disamb ++ (if capture then "x" else "") ++ squareName ton
  let after := pushCore b m
  body ++ (if inCheck after then (if isCheckmateCore after then "#" else "+") else "")

/-- Split a character list at every character satisfying `p`, keeping
empty segments — the semantics of Python `str.split(sep)` with an
explicit one-character separator. -/
def splitByAux (p : Char → Bool) : List Char → List Char → List String
  | [], acc => [String.mk acc.reverse]
  | x :: rest, acc =>
    if p x then String.mk acc.reverse :: splitByAux p rest []
    else splitByAux p rest (x :: acc)

/-- Split a string at every character satisfying `p`, keeping empty
segments. -/
def splitBy (p : Char → Bool) (s : String) : List String := splitByAux p s.data []

/-- Python `s.split(c)` for a one-character separator. -/
def splitChar (c : Char) (s : String) : List String := splitBy (· == c) s

/-- Python `str.split()` with no argument: split on whitespace runs,
dropping empty parts. -/
def splitWs (s : String) : List String := (splitBy Char.isWhitespace s).filter (· ≠ "")

/-- Python `str.strip()`: drop leading and trailing whitespace. -/
def pyStrip (s : String) : String :=
  String.mk (((s.data.dropWhile Char.isWhitespace).reverse.dropWhile Char.isWhitespace).reverse)

/-- Does the string start with character `c`? -/
def pyStartsWith (s : String) (c : Char) : Bool :=
  match s.data with
  | x :: _ => x == c
  | [] => false

/-- Does the string end with character `c`? -/
def pyEndsWith (s : String) (c : Char) : Bool :=
  match s.data.getLast? with
  | some x => x == c
  | none => false

/-- Python `c in s` for a character. -/
def pyContains (s : String) (c : Char) : Bool := s.data.contains c

/-- Parse a decimal numeral (the `int()` conversion of the FEN clock
fields; negative values, which `python-chess` rejects anyway, parse as
a failure). -/
def parseNat (s : String) : Option Nat :=
  if s.data ≠ [] ∧ s.data.all (fun c => decide ('0' ≤ c) && decide (c ≤ '9')) then
    some (s.data.foldl (fun a c => a * 10 + (c.toNat - '0'.toNat)) 0)
  else none

/-- Parse a FEN piece character. -/
def parsePieceChar (ch : Char) : Option CPiece :=
  match ch with
  | 'P' => some ⟨true, .pawn⟩
  | 'N' => some ⟨true, .knight⟩
  | 'B' => some ⟨true, .bishop⟩
  | 'R' => some ⟨true, .rook⟩
  | 'Q' => some ⟨true, .queen⟩
  | 'K' => some ⟨true, .king⟩
  | 'p' => some ⟨false, .pawn⟩
  | 'n' => some ⟨false, .knight⟩
  | 'b' => some ⟨false, .bishop⟩
  | 'r' => some ⟨false, .rook⟩
  | 'q' => some ⟨false, .queen⟩
  | 'k' => some ⟨false, .king⟩
  | _ => none

/-- Expand one FEN rank into 8 squares; rejects invalid characters, two
consecutive digits, and ranks that do not sum to 8 — the checks of
`chess.Board._set_board_fen`. -/
def expandRow (cs : List Char) (lastDigit : Bool) (acc : List (Option CPiece)) :
    Option (List (Option CPiece)) :=
  match cs with
  | [] => if acc.length == 8 then some acc else none
  | ch :: rest =>
    if '1' ≤ ch ∧ ch ≤ '8' then
      if lastDigit then none
      else expandRow rest true (acc ++ List.replicate (ch.toNat - '0'.toNat) none)
    else
      match parsePieceChar ch with
      | some p => expandRow rest false (acc ++ [some p])
      | none => none

/-- Parse the placement field of a FEN. -/
def parseBoardPart (s : String) : Option (List (Option CPiece)) :=
  let rows := splitChar '/' s
  if rows.length == 8 then
    (rows.mapM (fun r => expandRow r.toList false [])).map fun rs => rs.reverse.flatten
  else none

/-- Parse the side-to-move field of a FEN. -/
def parseTurn (s : String) : Option Bool :=
  if s == "w" then some true else if s == "b" then some false else none

/-- Parse the castling field of a FEN into `(WK, WQ, BK, BQ)`.
(The Shredder-FEN file letters `python-chess` also tolerates are not
modelled; `app.py` only round-trips standard FENs.) -/
def parseCastling (s : String) : Option (Bool × Bool × Bool × Bool) :=
  if s == "-" then some (false, false, false, false)
  else if s ≠ "" ∧ s.data.all (fun c => c == 'K' || c == 'Q' || c == 'k' || c == 'q') then
    some (pyContains s 'K', pyContains s 'Q', pyContains s 'k', pyContains s 'q')
  else none

/-- Parse a square name such as `e4` (`chess.parse_square`). -/
def parseSquareName (s : String) : Option Nat :=
  match s.toList with
  | [f, r] =>
    if 'a' ≤ f ∧ f ≤ 'h' ∧ '1' ≤ r ∧ r ≤ '8' then
      some ((r.toNat - '1'.toNat) * 8 + (f.toNat - 'a'.toNat))
    else none
  | _ => none

/-- Parse the en-passant field of a FEN. -/
def parseEp (s : String) : Option (Option Nat) :=
  if s == "-" then some none else (parseSquareName s).map some

/-- `chess.Board.set_fen`: split on whitespace, with the trailing fields
optional (side to move defaults to `w`, castling to `-`, en passant to
`-`, clocks to `0` and `1`), rejecting extra fields and any syntactic
error.  `set_fen` performs no semantic validation beyond this (it does
not, for instance, require kings on the board). -/
def parseFen (fen : String) : Option BoardCore :=
  match splitWs fen with
  | [] => none
  | boardPart :: rest =>
    if rest.length > 5 then none else
    match parseBoardPart boardPart, parseTurn (rest.getD 0 "w"),
        parseCastling (rest.getD 1 "-"), parseEp (rest.getD 2 "-"),
        parseNat (rest.getD 3 "0"), parseNat (rest.getD 4 "1") with
    | some pl, some t, some cr, some ep, some h, some f =>
      some ⟨pl, t, cr.1, cr.2.1, cr.2.2.1, cr.2.2.2, ep, h, max f 1⟩
    | _, _, _, _, _, _ => none

/-- `chess.Move.from_uci`: `0000` is the null move; otherwise two square
names and an optional lowercase promotion letter; identical origin and
target are rejected. -/
def parseUci (u : String) : Option Move :=
  if u == "0000" then some ⟨0, 0, none⟩
  else
    match u.toList with
    | [a, b, c, d] =>
      match parseSquareName (String.mk [a, b]), parseSquareName (String.mk [c, d]) with
      | some f, some t => if f == t then none else some ⟨(f : Int), (t : Int), none⟩
      | _, _ => none
    | [a, b, c, d, e] =>
      let promo : Option PieceKind := match e with
        | 'n' => some .knight
        | 'b' => some .bishop
        | 'r' => some .rook
        | 'q' => some .queen
        | _ => none
      match parseSquareName (String.mk [a, b]), parseSquareName (String.mk [c, d]), promo with
      | some f, some t, some k => if f == t then none else some ⟨(f : Int), (t : Int), some k⟩
      | _, _, _ => none
    | _ => none

/-- The standard starting placement (`chess.Board()` / `board.reset()`). -/
def startPlacement : List (Option CPiece) :=
  ([.rook, .knight, .bishop, .queen, .king, .bishop, .knight, .rook].map
    (fun k => some (⟨true, k⟩ : CPiece))) ++
  List.replicate 8 (some (⟨true, .pawn⟩ : CPiece)) ++
  List.replicate 32 none ++
  List.replicate 8 (some (⟨false, .pawn⟩ : CPiece)) ++
  ([.rook, .knight, .bishop, .queen, .king, .bishop, .knight, .rook].map
    (fun k => some (⟨false, k⟩ : CPiece)))

/-- The starting position core. -/
def initialCore : BoardCore :=
  ⟨startPlacement, true, true, true, true, true, none, 0, 1⟩

/-- A fresh `chess.Board()`. -/
def initialBoard : Board := ⟨initialCore, []⟩

/-- The three game modes of `app.py`. -/
inductive GameMode : Type
  | playerVsEngine | playerVsPlayer | engineVsEngine
deriving DecidableEq, BEq, Repr

/-- The per-session state of the `ChessGame` class.  The engine
subprocess handles `engine_white` / `engine_black` are modelled by
booleans recording whether a handle is present; real engine searches
are external and enter the model as oracle parameters.
`engine_time_limit` is a Python float compared against the literals
`0.1` and `60`; we model it as a rational (the comparison results agree
at every value the claims involve). -/
structure ChessGame : Type where
  board : Board
  engineWhite : Bool
  engineBlack : Bool
  engineThinking : Bool
  engineTimeLimit : Rat
  engineBattleActive : Bool
  gameMode : GameMode
  engineLevel : Int
  moveHistory : List String
  selectedSquare : Option (Int × Int)
  lastMove : Option ((Int × Int) × (Int × Int))
  engineReady : Bool
  playerColor : Bool
deriving DecidableEq, Repr

/-- `ChessGame.__init__`. -/
def initialGame : ChessGame :=
  { board := initialBoard
    engineWhite := false
    engineBlack := false
    engineThinking := false
    engineTimeLimit := 2
    engineBattleActive := false
    gameMode := .playerVsEngine
    engineLevel := 15
    moveHistory := []
    selectedSquare := none
    lastMove := none
    engineReady := false
    playerColor := true }

/-- The `chess.Move` that `make_move` builds from its square pairs. -/
def mkMoveOf (fromSq toSq : Int × Int) (promo : Option PieceKind) : Move :=
  ⟨squareOfPair fromSq, squareOfPair toSq, promo⟩

/-- The display-history update of `make_move`, with `moveCount` the
value of `len(self.board.move_stack)` read after the push: a White
half-move (odd count) starts a new numbered entry, a Black half-move
(even count) is appended to the last entry's text, falling back to an
`N...` entry when the history is empty. -/
def pushHistory (hist : List String) (moveCount : Nat) (san : String) : List String :=
  if moveCount % 2 == 1 then
    hist ++ [toString ((moveCount + 1) / 2) ++ ". " ++ san]
  else
    match hist.getLast? with
    | some last => hist.dropLast ++ [last ++ " " ++ san]
    | none => hist ++ [toString (moveCount / 2) ++ "... " ++ san]

/-- `ChessGame.make_move(from_square, to_square, promotion)`: build the
move from the `[file, rank]` pairs, and if it is in `legal_moves`, take
the SAN, push it, record `last_move`, clear the selection, and extend
the display move history via `pushHistory`; otherwise — including every
malformed input, whose Python exception is caught inside the method —
leave the state untouched and return `False`.  Returns the success flag
with the resulting session state. -/
def makeMove (g : ChessGame) (fromSq toSq : Int × Int) (promo : Option PieceKind) :
    Bool × ChessGame :=
  let m := mkMoveOf fromSq toSq promo
  if isLegal g.board.core m then
    let b' := pushBoard g.board m
    (true, { g with
      board := b'
      lastMove := some (fromSq, toSq)
      selectedSquare := none
      moveHistory := pushHistory g.moveHistory b'.stack.length (sanOf g.board.core m) })
  else (false, g)

/-- Python `s.split(' ', 2)`: split on single spaces, at most twice, the
remainder staying in the last part. -/
def pySplitSpace2 (s : String) : List String :=
  let ps := splitChar ' ' s
  if ps.length ≤ 3 then ps else ps.take 2 ++ [" ".intercalate (ps.drop 2)]

/-- `ChessGame.undo_move`: with a nonempty move stack, pop it (restoring
the saved pre-move state), re-split the display history (an entry that
contains a space and does not end in a dot lost its Black half, either
by dropping the last space-separated part or, for a two-part entry, the
whole entry; otherwise the whole entry is dropped), clear selection and
`last_move`, and return `True`; with an empty stack return `False` and
change nothing. -/
def undoMove (g : ChessGame) : Bool × ChessGame :=
  match g.board.stack with
  | [] => (false, g)
  | (_, c) :: rest =>
    let hist :=
      match g.moveHistory.getLast? with
      | none => g.moveHistory
      | some last =>
        if pyContains last ' ' && !(pyEndsWith last '.') then
          let parts := pySplitSpace2 last
          if 3 ≤ parts.length then
            g.moveHistory.dropLast ++ [" ".intercalate parts.dropLast]
          else g.moveHistory.dropLast
        else g.moveHistory.dropLast
    (true, { g with
      board := ⟨c, rest⟩
      moveHistory := hist
      selectedSquare := none
      lastMove := none })

/-- `ChessGame.start_engines`: the engine binary search and subprocess
launch are external; their joint outcome enters as the oracle `ok`.
On success both handles exist and `engine_ready` is set; on failure
(no binary found, or an exception while starting) `engine_ready` is
false and the handles are unchanged. -/
def startEngines (g : ChessGame) (ok : Bool) : ChessGame :=
  if ok then { g with engineWhite := true, engineBlack := true, engineReady := true }
  else { g with engineReady := false }

/-- `ChessGame.new_game`: reset the board (which also clears the move
stack), clear history, selection and `last_move`, stop any battle,
clear `engine_thinking`, and restart the engines when they were not
ready (outcome `startOk`). -/
def newGame (g : ChessGame) (startOk : Bool) : ChessGame :=
  let g' := { g with
    board := initialBoard
    moveHistory := []
    selectedSquare := none
    lastMove := none
    engineBattleActive := false
    engineThinking := false }
  if !g'.engineReady then startEngines g' startOk else g'

/-- The `/api/set_position` handler: validate the FEN (a parse failure
raises inside the `try`, is caught, and leaves the session unchanged),
then replace the board — `set_fen` also clears the move stack — and
clear the display history, selection and `last_move`.  Returns the
success flag of the response. -/
def setPosition (g : ChessGame) (fen : String) : Bool × ChessGame :=
  match parseFen fen with
  | none => (false, g)
  | some core =>
    (true, { g with
      board := ⟨core, []⟩
      moveHistory := []
      selectedSquare := none
      lastMove := none })

/-- The `/api/set_engine_settings` handler: a supplied time limit is
stored only when `0.1 <= time_limit <= 60` (note: both bounds
inclusive), a supplied level only when `0 <= level <= 20`; out-of-range
values are silently ignored and the stored settings retained. -/
def setEngineSettings (g : ChessGame) (timeLimit : Option Rat) (level : Option Int) :
    ChessGame :=
  let g1 := match timeLimit with
    | some t => if (1 : Rat)/10 ≤ t ∧ t ≤ 60 then { g with engineTimeLimit := t } else g
    | none => g
  match level with
  | some l => if 0 ≤ l ∧ l ≤ 20 then { g1 with engineLevel := l } else g1
  | none => g1

/-- `ChessGame.get_engine_move`, sequential big-step semantics.  The
actual search (`engine.play`) is external; `oracle` is the move the
engine returned, `none` standing for "no move / crash / timeout /
exception".  The method returns `False` without touching anything when
`engine_thinking` is already set, the game is over, the engines are not
ready, or the handle for the side to move is missing (all checked
before `engine_thinking` is set).  Otherwise `engine_thinking` is set,
the engine consulted, a returned move double-checked against
`legal_moves` and committed through `make_move`, and the `finally`
block clears `engine_thinking` on every path. -/
def getEngineMove (g : ChessGame) (oracle : Option Move) : Bool × ChessGame :=
  if g.engineThinking || isGameOver g.board || !g.engineReady then (false, g)
  else if !(if g.board.core.turn then g.engineWhite else g.engineBlack) then (false, g)
  else
    match oracle with
    | none => (false, { g with engineThinking := false })
    | some m =>
      if isLegal g.board.core m then
        let fp : Int × Int := (fI m.fromSq, rI m.fromSq)
        let tp : Int × Int := (fI m.toSq, rI m.toSq)
        let r := makeMove g fp tp m.promo
        (r.1, { r.2 with engineThinking := false })
      else (false, { g with engineThinking := false })

/-- The known result tokens skipped by `load_game`. -/
def resultTokens : List String := ["1-0", "0-1", "1/2-1/2", "*"]

/-- `content.split('\n')`, each line stripped, empty lines dropped. -/
def pyLines (content : String) : List String :=
  ((splitChar '\n' content).map pyStrip).filter (· ≠ "")

/-- The move-token filter of `load_game`: not a PGN header line, not a
result token, at least 4 characters, and no `.` among the first three
characters (`not '.' in line[:3]`, which skips numbered SAN lines). -/
def extractMoves (content : String) : List String :=
  (pyLines content).filter fun l =>
    !(pyStartsWith l '[') && !(resultTokens.contains l) &&
      decide (4 ≤ l.data.length) && !((l.data.take 3).contains '.')

/-- The token filter as the spec describes it — headers and result
tokens skipped, every remaining token of length at least 4 kept — for
comparison with the source's `extractMoves` (which additionally skips
tokens with a dot among the first three characters). -/
def extractMovesSpec (content : String) : List String :=
  (pyLines content).filter fun l =>
    !(pyStartsWith l '[') && !(resultTokens.contains l) && decide (4 ≤ l.data.length)

/-- Outcome of `load_game`: success, or abort at the first token that
is illegal (`'Illegal move: …'`) or unparseable
(`'Invalid move format: …'`). -/
inductive LoadOutcome : Type
  | ok
  | illegalMove (tok : String)
  | badFormat (tok : String)
deriving DecidableEq, Repr

/-- The replay loop of `load_game`: parse each token with
`Move.from_uci`, check it against `legal_moves`, and apply it through
`make_move` with the move's file/rank pairs; stop at the first
unparseable or illegal token, leaving the moves already replayed in
place. -/
def replay (g : ChessGame) : List String → LoadOutcome × ChessGame
  | [] => (.ok, g)
  | tok :: rest =>
    match parseUci tok with
    | none => (.badFormat tok, g)
    | some m =>
      if isLegal g.board.core m then
        let fp : Int × Int := (fI m.fromSq, rI m.fromSq)
        let tp : Int × Int := (fI m.toSq, rI m.toSq)
        replay (makeMove g fp tp m.promo).2 rest
      else (.illegalMove tok, g)

/-- The `/api/load_game` handler: extract the move tokens from the
uploaded content, reset via `new_game` (with engine-restart oracle
`startOk`), and replay the tokens from the initial position. -/
def loadGame (g : ChessGame) (startOk : Bool) (content : String) :
    LoadOutcome × ChessGame :=
  replay (newGame g startOk) (extractMoves content)

/-- Why the engine-battle loop stopped. -/
inductive StopReason : Type
  | battleOff | gameOver | moveCap | engineFail
deriving DecidableEq, Repr

/-- The `battle_thread` loop of `toggle_engine_battle`, sequential
big-step semantics with an explicit fuel bound (`none` = the scheduler
has not yet given the loop enough steps to finish) and an oracle list
feeding each `get_engine_move` call.  The loop runs while
`engine_battle_active` holds, the game is not over and fewer than 200
moves were made by the loop; a `get_engine_move` failure breaks out;
and `engine_battle_active` is reset to `False` after the loop on every
path.  The result also records the loop's final move count and which
condition ended it. -/
def battleLoop : Nat → ChessGame → List (Option Move) → Nat →
    Option (ChessGame × Nat × StopReason)
  | 0, _, _, _ => none
  | fuel + 1, g, oracle, count =>
    if !g.engineBattleActive then
      some ({ g with engineBattleActive := false }, count, .battleOff)
    else if isGameOver g.board then
      some ({ g with engineBattleActive := false }, count, .gameOver)
    else if 200 ≤ count then
      some ({ g with engineBattleActive := false }, count, .moveCap)
    else if g.engineThinking then
      battleLoop fuel g oracle count
    else
      let r := getEngineMove g (oracle.headD none)
      if r.1 then battleLoop fuel r.2 oracle.tail (count + 1)
      else some ({ r.2 with engineBattleActive := false }, count, .engineFail)

/-- Program counter of one request thread running the unsynchronised
admission prelude of `get_engine_move`:
`idle` — about to read `engine_thinking` (line 204);
`ready` — the guard read `False`, about to assign
`engine_thinking = True` (line 213);
`running` — computation in flight;
`done` — returned. -/
inductive DispatchPc : Type
  | idle | ready | running | done
deriving DecidableEq, Repr

/-- Two request threads dispatching `get_engine_move` on one session:
their program counters plus the shared `engine_thinking` flag.  No lock
is involved — `get_engine_move` neither holds nor takes the session
lock around the check or the assignment. -/
structure DispatchState : Type where
  pc1 : DispatchPc
  pc2 : DispatchPc
  thinking : Bool
deriving DecidableEq, Repr

/-- Interleaving steps of the two dispatching threads, exactly the
accesses the Python code makes: a guard read that passes (flag `False`)
or fails (flag `True`, the call returns `False`), the unguarded
assignment `engine_thinking = True`, and completion (the `finally`
block clearing the flag). -/
inductive DispatchStep : DispatchState → DispatchState → Prop
  | checkPass1 (s : DispatchState) : s.pc1 = .idle → s.thinking = false →
      DispatchStep s { s with pc1 := .ready }
  | checkFail1 (s : DispatchState) : s.pc1 = .idle → s.thinking = true →
      DispatchStep s { s with pc1 := .done }
  | setFlag1 (s : DispatchState) : s.pc1 = .ready →
      DispatchStep s { s with pc1 := .running, thinking := true }
  | finish1 (s : DispatchState) : s.pc1 = .running →
      DispatchStep s { s with pc1 := .done, thinking := false }
  | checkPass2 (s : DispatchState) : s.pc2 = .idle → s.thinking = false →
      DispatchStep s { s with pc2 := .ready }
  | checkFail2 (s : DispatchState) : s.pc2 = .idle → s.thinking = true →
      DispatchStep s { s with pc2 := .done }
  | setFlag2 (s : DispatchState) : s.pc2 = .ready →
      DispatchStep s { s with pc2 := .running, thinking := true }
  | finish2 (s : DispatchState) : s.pc2 = .running →
      DispatchStep s { s with pc2 := .done, thinking := false }

/-- States reachable from both threads about to dispatch with the flag
clear. -/
inductive DispatchReach : DispatchState → Prop
  | start : DispatchReach ⟨.idle, .idle, false⟩
  | step {s s' : DispatchState} : DispatchReach s → DispatchStep s s' → DispatchReach s'

/-- The session states reachable through the public operations the
parity claim quantifies over: a fresh session, make-move, undo,
new-game, set-FEN and load. -/
inductive ReachableFull : ChessGame → Prop
  | init : ReachableFull initialGame
  | mv (g : ChessGame) (f t : Int × Int) (p : Option PieceKind) :
      ReachableFull g → ReachableFull (makeMove g f t p).2
  | und (g : ChessGame) : ReachableFull g → ReachableFull (undoMove g).2
  | ng (g : ChessGame) (r : Bool) : ReachableFull g → ReachableFull (newGame g r)
  | sfen (g : ChessGame) (fen : String) : ReachableFull g → ReachableFull (setPosition g fen).2
  | ld (g : ChessGame) (r : Bool) (content : String) :
      ReachableFull g → ReachableFull (loadGame g r content).2

/-- The same reachable states with set-FEN removed. -/
inductive ReachableNoFen : ChessGame → Prop
  | init : ReachableNoFen initialGame
  | mv (g : ChessGame) (f t : Int × Int) (p : Option PieceKind) :
      ReachableNoFen g → ReachableNoFen (makeMove g f t p).2
  | und (g : ChessGame) : ReachableNoFen g → ReachableNoFen (undoMove g).2
  | ng (g : ChessGame) (r : Bool) : ReachableNoFen g → ReachableNoFen (newGame g r)
  | ld (g : ChessGame) (r : Bool) (content : String) :
      ReachableNoFen g → ReachableNoFen (loadGame g r content).2

/-- Saved-state coherence of a move stack: each saved core's side to
move is the opposite of the side to move of the state built on top of
it (which is what one push creates). -/
def goodStack : Bool → List (Move × BoardCore) → Prop
  | _, [] => True
  | t, (_, c) :: rest => c.turn = !t ∧ goodStack c.turn rest

/-- The parity invariant on a board: it is White's turn exactly when the
number of pushed half-moves is even, and the saved stack is coherent. -/
def ParityInvB (bd : Board) : Prop :=
  (bd.core.turn = true ↔ bd.stack.length % 2 = 0) ∧ goodStack bd.core.turn bd.stack

/-- A syntactically valid FEN with Black to move, as a `set_position`
request would carry it. -/
def blackToMoveFen : String :=
  "rnbqkbnr/pppppppp/8/8/8/8/PPPPPPPP/RNBQKBNR b KQkq - 0 1"

/-- The import file of the C8 scenario: header lines plus the single
UCI token `e2e4`. -/
def sampleImport : String :=
  "[Event \"Flask Chess Game\"]\n[Result \"*\"]\n\ne2e4\n"

/-! ### Helper lemmas -/

theorem isLegal_pieceAt {b : BoardCore} {m : Move} (h : isLegal b m = true) :
    ∃ p, pieceAt b m.fromSq = some p := by
  unfold isLegal at h
  cases hp : pieceAt b m.fromSq with
  | none => rw [hp] at h; simp at h
  | some p => exact ⟨p, rfl⟩

theorem pushCore_turn {b : BoardCore} {m : Move} {p : CPiece}
    (hp : pieceAt b m.fromSq = some p) : (pushCore b m).turn = !b.turn := by
  unfold pushCore
  rw [hp]

/-- Shape of a successful `make_move`: the move is pushed (saving the
pre-move core on the stack), `last_move` points at the raw input square
pairs, the selection is cleared, and everything not listed in the
method is untouched. -/
theorem makeMove_legal_spec (g : ChessGame) (f t : Int × Int) (p : Option PieceKind)
    (h : isLegal g.board.core (mkMoveOf f t p) = true) :
    (makeMove g f t p).1 = true ∧
    (makeMove g f t p).2.board = pushBoard g.board (mkMoveOf f t p) ∧
    (makeMove g f t p).2.lastMove = some (f, t) ∧
    (makeMove g f t p).2.selectedSquare = none ∧
    (makeMove g f t p).2.engineThinking = g.engineThinking ∧
    (makeMove g f t p).2.engineBattleActive = g.engineBattleActive := by
  simp [makeMove, h]

theorem makeMove_illegal_spec (g : ChessGame) (f t : Int × Int) (p : Option PieceKind)
    (h : isLegal g.board.core (mkMoveOf f t p) = false) :
    makeMove g f t p = (false, g) := by
  simp only [makeMove, h]
  rfl

theorem makeMove_legal_eq (g : ChessGame) (f t : Int × Int) (p : Option PieceKind)
    (h : isLegal g.board.core (mkMoveOf f t p) = true) :
    makeMove g f t p = (true, { g with
      board := pushBoard g.board (mkMoveOf f t p)
      lastMove := some (f, t)
      selectedSquare := none
      moveHistory := pushHistory g.moveHistory
        (pushBoard g.board (mkMoveOf f t p)).stack.length
        (sanOf g.board.core (mkMoveOf f t p)) }) := by
  simp [makeMove, h]

theorem setEngineSettings_time (g : ChessGame) (t : Rat) (level : Option Int) :
    (setEngineSettings g (some t) level).engineTimeLimit
      = (if (1 : Rat)/10 ≤ t ∧ t ≤ 60 then t else g.engineTimeLimit) := by
  cases level with
  | none =>
    simp only [setEngineSettings]
    split <;> simp_all
  | some l =>
    simp only [setEngineSettings]
    split <;> split <;> simp_all

theorem newGame_board (g : ChessGame) (startOk : Bool) :
    (newGame g startOk).board = initialBoard := by
  unfold newGame startEngines
  by_cases h : g.engineReady <;> cases startOk <;> simp [h]

/-! ### C1 -/

/-- Claim C1: for every legal move, `make_move` flips the side to move
exactly once, appends exactly one record (the move together with its
pre-move state) to the move log, sets `last_move` to the move's from/to
squares, clears the selection, and returns success. -/
theorem make_move_legal_commits (g : ChessGame) (fromSq toSq : Int × Int)
    (promo : Option PieceKind)
    (h : isLegal g.board.core (mkMoveOf fromSq toSq promo) = true) :
    (makeMove g fromSq toSq promo).1 = true ∧
    ((makeMove g fromSq toSq promo).2).board.core.turn = !g.board.core.turn ∧
    ((makeMove g fromSq toSq promo).2).board.stack
      = (mkMoveOf fromSq toSq promo, g.board.core) :: g.board.stack ∧
    ((makeMove g fromSq toSq promo).2).lastMove = some (fromSq, toSq) ∧
    ((makeMove g fromSq toSq promo).2).selectedSquare = none := by
  obtain ⟨p, hp⟩ := isLegal_pieceAt h
  obtain ⟨h1, h2, h3, h4, -⟩ := makeMove_legal_spec g fromSq toSq promo h
  refine ⟨h1, ?_, ?_, h3, h4⟩
  · rw [h2]
    exact pushCore_turn hp
  · rw [h2]
    rfl

/-- Witness for C1: from the freshly created game, `e2e4` is legal and
is committed. -/
theorem make_move_legal_commits_witness :
    isLegal initialGame.board.core (mkMoveOf (4, 1) (4, 3) none) = true ∧
    (makeMove initialGame (4, 1) (4, 3) none).1 = true ∧
    ((makeMove initialGame (4, 1) (4, 3) none).2).board.core.turn = false :=
  ⟨by decide,
   (make_move_legal_commits initialGame (4, 1) (4, 3) none (by decide)).1,
   by rw [(make_move_legal_commits initialGame (4, 1) (4, 3) none (by decide)).2.1]; decide⟩

/-! ### C2 -/

/-- Claim C2: for every illegal or malformed move request (the built
move is not in `legal_moves`; Python exceptions raised on malformed
input are caught inside the method, which the totality of this model
reflects), `make_move` returns failure and leaves the whole session
state — position, move log, selection included — unchanged. -/
theorem make_move_illegal_rejected (g : ChessGame) (fromSq toSq : Int × Int)
    (promo : Option PieceKind)
    (h : isLegal g.board.core (mkMoveOf fromSq toSq promo) = false) :
    makeMove g fromSq toSq promo = (false, g) :=
  makeMove_illegal_spec g fromSq toSq promo h

/-- Witness for C2: `e2e5` (a three-square pawn advance) is illegal in
the initial position and is rejected without touching the state. -/
theorem make_move_illegal_rejected_witness :
    isLegal initialGame.board.core (mkMoveOf (4, 1) (4, 4) none) = false ∧
    makeMove initialGame (4, 1) (4, 4) none = (false, initialGame) :=
  ⟨by decide, make_move_illegal_rejected initialGame (4, 1) (4, 4) none (by decide)⟩

/-! ### C3 -/

/-- Claim C3: after any successful `make_move` (i.e. for a game with
N ≥ 1 applied half-moves, the Nth being that move), `undo_move`
succeeds and restores a position whose FEN equals the FEN of the
position before that half-move; on an empty move stack (N = 0) it
returns failure and changes nothing. -/
theorem undo_restores_previous_position :
    (∀ (g : ChessGame) (fromSq toSq : Int × Int) (promo : Option PieceKind),
      (makeMove g fromSq toSq promo).1 = true →
      (undoMove (makeMove g fromSq toSq promo).2).1 = true ∧
      fenOf ((undoMove (makeMove g fromSq toSq promo).2).2).board.core
        = fenOf g.board.core) ∧
    (∀ g : ChessGame, g.board.stack = [] → undoMove g = (false, g)) := by
  constructor
  · intro g f t p h
    cases hl : isLegal g.board.core (mkMoveOf f t p) with
    | false => rw [makeMove_illegal_spec g f t p hl] at h; simp at h
    | true =>
      rw [makeMove_legal_eq g f t p hl]
      exact ⟨rfl, rfl⟩
  · intro g h
    unfold undoMove
    rw [h]

/-- Witness for C3: make `e2e4` from the initial game, undo it, and get
the initial FEN back; undo on the fresh game fails. -/
theorem undo_restores_previous_position_witness :
    ((makeMove initialGame (4, 1) (4, 3) none).1 = true ∧
      (undoMove (makeMove initialGame (4, 1) (4, 3) none).2).1 = true ∧
      fenOf ((undoMove (makeMove initialGame (4, 1) (4, 3) none).2).2).board.core
        = fenOf initialGame.board.core) ∧
    undoMove initialGame = (false, initialGame) := by
  refine ⟨⟨by decide, ?_, ?_⟩, ?_⟩
  · exact (undo_restores_previous_position.1 initialGame (4, 1) (4, 3) none (by decide)).1
  · exact (undo_restores_previous_position.1 initialGame (4, 1) (4, 3) none (by decide)).2
  · exact undo_restores_previous_position.2 initialGame rfl

/-! ### C4 -/

/-- Claim C4: from a new game, `e2e4` yields move log exactly
`["1. e4"]` with Black to move; `e7e5` then yields `["1. e4 e5"]`; one
undo then yields `["1. e4"]`, Black to move, and a position FEN equal
to the post-`e4` FEN — a White half-move starts a new numbered pair
entry, a Black half-move is appended to that entry's text, and undo
splits a completed pair (or removes a solitary entry). -/
theorem scenario_e4_e5_undo :
    (makeMove initialGame (4, 1) (4, 3) none).1 = true ∧
    (makeMove initialGame (4, 1) (4, 3) none).2.moveHistory = ["1. e4"] ∧
    (makeMove initialGame (4, 1) (4, 3) none).2.board.core.turn = false ∧
    (makeMove (makeMove initialGame (4, 1) (4, 3) none).2 (4, 6) (4, 4) none).1 = true ∧
    (makeMove (makeMove initialGame (4, 1) (4, 3) none).2 (4, 6) (4, 4) none).2.moveHistory
      = ["1. e4 e5"] ∧
    (undoMove (makeMove (makeMove initialGame (4, 1) (4, 3) none).2 (4, 6) (4, 4) none).2).1
      = true ∧
    (undoMove (makeMove (makeMove initialGame (4, 1) (4, 3) none).2
        (4, 6) (4, 4) none).2).2.moveHistory = ["1. e4"] ∧
    (undoMove (makeMove (makeMove initialGame (4, 1) (4, 3) none).2
        (4, 6) (4, 4) none).2).2.board.core.turn = false ∧
    fenOf (undoMove (makeMove (makeMove initialGame (4, 1) (4, 3) none).2
        (4, 6) (4, 4) none).2).2.board.core
      = fenOf (makeMove initialGame (4, 1) (4, 3) none).2.board.core := by
  decide

/-! ### C9 -/

/-- Counterexample to C9 as stated: the spec's bounds `(0.1, 60]`
exclude `0.1` itself, so setting the time budget to `0.1` would have to
be rejected with the prior value (`2.0` on a fresh session) retained;
the code's inclusive check `0.1 <= time_limit <= 60` stores it. -/
theorem time_budget_boundary_counterexample :
    ¬((1 : Rat)/10 > (1 : Rat)/10) ∧
    (setEngineSettings initialGame (some ((1 : Rat)/10)) none).engineTimeLimit
      = (1 : Rat)/10 ∧
    initialGame.engineTimeLimit = 2 ∧ (1 : Rat)/10 ≠ 2 := by
  refine ⟨by norm_num, ?_, rfl, by norm_num⟩
  rw [setEngineSettings_time]
  norm_num

/-- Claim C9 (amended): a time-budget value outside the closed interval
`[0.1, 60]` is ignored and the previously stored value retained, while
a value inside it (both endpoints included) is stored — whatever level
update accompanies it. -/
theorem time_budget_bounds (g : ChessGame) (t : Rat) (level : Option Int) :
    ((1 : Rat)/10 ≤ t ∧ t ≤ 60 →
      (setEngineSettings g (some t) level).engineTimeLimit = t) ∧
    (¬((1 : Rat)/10 ≤ t ∧ t ≤ 60) →
      (setEngineSettings g (some t) level).engineTimeLimit = g.engineTimeLimit) := by
  rw [setEngineSettings_time]
  constructor
  · intro h
    rw [if_pos h]
  · intro h
    rw [if_neg h]

/-- Witness for C9 (amended): `120` is rejected (the fresh session's
`2.0` stays), `0.5` is stored. -/
theorem time_budget_bounds_witness :
    (setEngineSettings initialGame (some 120) none).engineTimeLimit = 2 ∧
    (setEngineSettings initialGame (some ((1 : Rat)/2)) none).engineTimeLimit
      = (1 : Rat)/2 := by
  constructor
  · rw [(time_budget_bounds initialGame 120 none).2 (by norm_num)]
    rfl
  · exact (time_budget_bounds initialGame ((1 : Rat)/2) none).1 (by norm_num)

/-! ### C5 -/

theorem parityInvB_initial : ParityInvB initialBoard :=
  ⟨by simp [initialBoard, initialCore], trivial⟩

theorem parityInvB_makeMove {g : ChessGame} (hI : ParityInvB g.board)
    (f t : Int × Int) (p : Option PieceKind) : ParityInvB (makeMove g f t p).2.board := by
  cases hl : isLegal g.board.core (mkMoveOf f t p) with
  | false => rw [makeMove_illegal_spec g f t p hl]; exact hI
  | true =>
    obtain ⟨q, hq⟩ := isLegal_pieceAt hl
    obtain ⟨h1, h2⟩ := hI
    rw [makeMove_legal_eq g f t p hl]
    refine ⟨?_, ?_, ?_⟩
    · show (pushCore g.board.core _).turn = true ↔ (_ :: g.board.stack).length % 2 = 0
      rw [pushCore_turn hq]
      cases ht : g.board.core.turn <;> rw [ht] at h1 <;>
        simp only [List.length_cons] <;> simp_all <;> omega
    · show g.board.core.turn = !(pushCore g.board.core _).turn
      rw [pushCore_turn hq]
      simp
    · show goodStack g.board.core.turn g.board.stack
      exact h2

theorem parityInvB_undo {g : ChessGame} (hI : ParityInvB g.board) :
    ParityInvB (undoMove g).2.board := by
  obtain ⟨h1, h2⟩ := hI
  rcases hs : g.board.stack with _ | ⟨⟨m, c⟩, rest⟩
  · unfold undoMove
    rw [hs]
    exact ⟨h1, h2⟩
  · rw [hs] at h1 h2
    obtain ⟨hc, hrest⟩ := h2
    unfold undoMove
    rw [hs]
    refine ⟨?_, hrest⟩
    show c.turn = true ↔ rest.length % 2 = 0
    rw [hc]
    cases ht : g.board.core.turn <;> rw [ht] at h1 <;>
      simp only [List.length_cons] at h1 <;> simp_all <;> omega

theorem parityInvB_newGame (g : ChessGame) (startOk : Bool) :
    ParityInvB (newGame g startOk).board := by
  rw [newGame_board]
  exact parityInvB_initial

theorem parityInvB_replay (toks : List String) :
    ∀ g : ChessGame, ParityInvB g.board → ParityInvB (replay g toks).2.board := by
  induction toks with
  | nil => intro g h; exact h
  | cons tok rest ih =>
    intro g h
    simp only [replay]
    cases hp : parseUci tok with
    | none => exact h
    | some m =>
      cases hl : isLegal g.board.core m with
      | false => simp only [hl]; simp; exact h
      | true =>
        simp only [hl, if_true]
        exact ih _ (parityInvB_makeMove h _ _ _)

theorem parityInvB_loadGame (g : ChessGame) (startOk : Bool) (content : String) :
    ParityInvB (loadGame g startOk content).2.board :=
  parityInvB_replay _ _ (parityInvB_newGame g startOk)

theorem parityInvB_reachableNoFen {g : ChessGame} (h : ReachableNoFen g) :
    ParityInvB g.board := by
  induction h with
  | init => exact parityInvB_initial
  | mv g f t p _ ih => exact parityInvB_makeMove ih f t p
  | und g _ ih => exact parityInvB_undo ih
  | ng g r _ _ => exact parityInvB_newGame g r
  | ld g r content _ _ => exact parityInvB_loadGame g r content

/-- Counterexample to C5 as stated: set-FEN breaks the parity
invariant.  `set_position` with a syntactically valid black-to-move FEN
clears the move log (`set_fen` empties the move stack and the handler
empties the display history) yet adopts the FEN's side to move, giving
a reachable state with an even (zero-length) move log and Black to
move. -/
theorem move_log_parity_claim_false :
    ¬(∀ g : ChessGame, ReachableFull g →
        (g.board.core.turn = true ↔ g.board.stack.length % 2 = 0)) := by
  intro hAll
  have hr := hAll (setPosition initialGame blackToMoveFen).2
    (ReachableFull.sfen initialGame blackToMoveFen ReachableFull.init)
  have h1 : (setPosition initialGame blackToMoveFen).2.board.core.turn = false := by decide
  have h2 : (setPosition initialGame blackToMoveFen).2.board.stack.length = 0 := by decide
  rw [h1, h2] at hr
  simp at hr

/-- Claim C5 (amended): in every session state reachable through
make-move, undo, new-game and load — but not set-FEN, which violates
the invariant — it is White's turn exactly when the number of logged
half-moves (the move-stack length) is even. -/
theorem move_log_parity (g : ChessGame) (h : ReachableNoFen g) :
    g.board.core.turn = true ↔ g.board.stack.length % 2 = 0 :=
  (parityInvB_reachableNoFen h).1

/-- Witness for C5 (amended): the invariant at the state reached by
playing `e2e4` from a fresh session. -/
theorem move_log_parity_witness :
    (makeMove initialGame (4, 1) (4, 3) none).2.board.core.turn = true ↔
      (makeMove initialGame (4, 1) (4, 3) none).2.board.stack.length % 2 = 0 :=
  move_log_parity _ (ReachableNoFen.mv initialGame (4, 1) (4, 3) none ReachableNoFen.init)

/-! ### C6 -/

/-- Counterexample to C6 as stated: the `engine_thinking` check (line
204) and the assignment `engine_thinking = True` (line 213) of
`get_engine_move` are performed without holding the session lock, so in
the two-thread interleaving model both dispatches can pass the guard
before either sets the flag: a state with both computations in flight
is reachable. -/
theorem engine_exclusion_claim_false :
    ¬(∀ s : DispatchState, DispatchReach s →
        ¬(s.pc1 = DispatchPc.running ∧ s.pc2 = DispatchPc.running)) := by
  intro hAll
  refine hAll ⟨.running, .running, true⟩ ?_ ⟨rfl, rfl⟩
  exact DispatchReach.step
    (DispatchReach.step
      (DispatchReach.step
        (DispatchReach.step DispatchReach.start
          (DispatchStep.checkPass1 ⟨.idle, .idle, false⟩ rfl rfl))
        (DispatchStep.checkPass2 ⟨.ready, .idle, false⟩ rfl rfl))
      (DispatchStep.setFlag1 ⟨.ready, .ready, false⟩ rfl))
    (DispatchStep.setFlag2 ⟨.running, .ready, true⟩ rfl)

/-- Claim C6 (amended): the `engineThinking` guard does stop a dispatch
that observes it — a `get_engine_move` call finding `engine_thinking`
already true returns failure and changes nothing — but the check and
set are not atomic with respect to the session lock, so two interleaved
dispatches can both proceed (see the counterexample). -/
theorem engine_thinking_guard (g : ChessGame) (oracle : Option Move)
    (h : g.engineThinking = true) : getEngineMove g oracle = (false, g) := by
  unfold getEngineMove
  rw [h]
  rfl

/-- Witness for C6 (amended): a session with the flag set rejects a
dispatch. -/
theorem engine_thinking_guard_witness :
    ({ initialGame with engineThinking := true } : ChessGame).engineThinking = true ∧
    getEngineMove { initialGame with engineThinking := true } none
      = (false, { initialGame with engineThinking := true }) :=
  ⟨rfl, engine_thinking_guard { initialGame with engineThinking := true } none rfl⟩

/-! ### C7 -/

theorem getEngineMove_thinking {g : ChessGame} (oracle : Option Move)
    (h : g.engineThinking = false) :
    ((getEngineMove g oracle).2).engineThinking = false := by
  unfold getEngineMove
  split_ifs <;> try exact h
  all_goals
    cases oracle with
    | none => rfl
    | some m => by_cases hl : isLegal g.board.core m = true <;> simp [hl]

theorem battleLoop_safety :
    ∀ (fuel : Nat) (g : ChessGame) (oracle : List (Option Move)) (count : Nat)
      (g' : ChessGame) (n : Nat) (r : StopReason),
      battleLoop fuel g oracle count = some (g', n, r) →
      g'.engineBattleActive = false ∧
      (r = StopReason.gameOver → isGameOver g'.board = true) ∧
      (r = StopReason.moveCap → 200 ≤ n) := by
  intro fuel
  induction fuel with
  | zero => intro g o c g' n r h; simp [battleLoop] at h
  | succ fuel ih =>
    intro g o c g' n r h
    simp only [battleLoop] at h
    split_ifs at h with h1 h2 h3 h4 h5
    · simp only [Option.some.injEq, Prod.mk.injEq] at h
      obtain ⟨rfl, rfl, rfl⟩ := h
      exact ⟨rfl, by intro hr; simp at hr, by intro hr; simp at hr⟩
    · simp only [Option.some.injEq, Prod.mk.injEq] at h
      obtain ⟨rfl, rfl, rfl⟩ := h
      exact ⟨rfl, fun _ => h2, by intro hr; simp at hr⟩
    · simp only [Option.some.injEq, Prod.mk.injEq] at h
      obtain ⟨rfl, rfl, rfl⟩ := h
      exact ⟨rfl, by intro hr; simp at hr, fun _ => h3⟩
    · exact ih g o c g' n r h
    · exact ih _ o.tail (c + 1) g' n r h
    · simp only [Option.some.injEq, Prod.mk.injEq] at h
      obtain ⟨rfl, rfl, rfl⟩ := h
      exact ⟨rfl, by intro hr; simp at hr, by intro hr; simp at hr⟩

theorem battleLoop_term :
    ∀ (fuel : Nat) (g : ChessGame) (oracle : List (Option Move)) (count : Nat),
      g.engineThinking = false → 1 ≤ fuel → 201 ≤ fuel + count →
      (battleLoop fuel g oracle count).isSome = true := by
  intro fuel
  induction fuel with
  | zero => intro g o c _ hpos _; omega
  | succ fuel ih =>
    intro g o c hth _ hc
    simp only [battleLoop]
    split_ifs with h1 h2 h3 h4 h5
    · rfl
    · rfl
    · rfl
    · rw [hth] at h4; simp at h4
    · refine ih _ o.tail (c + 1) (getEngineMove_thinking _ hth) ?_ ?_ <;> omega
    · rfl

/-- Claim C7: the battle loop (in the sequential big-step model, with
the engine answers supplied as an oracle list and fuel standing for the
scheduler steps granted to the loop thread) terminates only by
observing `battleActive` false, reaching a terminal position, reaching
the 200-move ceiling of its own move counter, or an engine-move cycle
failing — and on every termination path the final state has
`battleActive` reset to false (so a fresh toggle can restart); moreover
it does terminate: whenever `engineThinking` is clear, enough fuel
makes the loop return. -/
theorem battle_loop_stops_and_resets :
    (∀ (fuel : Nat) (g : ChessGame) (oracle : List (Option Move)) (count : Nat)
       (g' : ChessGame) (n : Nat) (r : StopReason),
       battleLoop fuel g oracle count = some (g', n, r) →
       g'.engineBattleActive = false ∧
       (r = StopReason.gameOver → isGameOver g'.board = true) ∧
       (r = StopReason.moveCap → 200 ≤ n)) ∧
    (∀ (fuel : Nat) (g : ChessGame) (oracle : List (Option Move)) (count : Nat),
       g.engineThinking = false → 1 ≤ fuel → 201 ≤ fuel + count →
       (battleLoop fuel g oracle count).isSome = true) :=
  ⟨battleLoop_safety, battleLoop_term⟩

/-- Witness for C7: with the engines not ready, the first engine-move
cycle fails, the loop stops at once with `battleActive` false; and the
loop with full fuel returns. -/
theorem battle_loop_stops_and_resets_witness :
    (battleLoop 201 { initialGame with engineBattleActive := true } [] 0).isSome = true ∧
    initialGame.engineBattleActive = false :=
  ⟨battle_loop_stops_and_resets.2 201 { initialGame with engineBattleActive := true } [] 0
      rfl (by omega) (by omega),
   (battle_loop_stops_and_resets.1 1 { initialGame with engineBattleActive := true } [] 0
      initialGame 0 StopReason.engineFail rfl).1⟩

/-! ### C8 -/

theorem pieceAt_some_range {b : BoardCore} {sq : Int} {p : CPiece}
    (h : pieceAt b sq = some p) : 0 ≤ sq ∧ sq < 64 := by
  unfold pieceAt at h
  split_ifs at h with hr
  exact hr

theorem isLegal_toSq_range {b : BoardCore} {m : Move}
    (h : isLegal b m = true) : 0 ≤ m.toSq ∧ m.toSq < 64 := by
  unfold isLegal at h
  cases hp : pieceAt b m.fromSq with
  | none => rw [hp] at h; simp at h
  | some p =>
    simp only [hp] at h
    split_ifs at h with h1 h2
    · unfold legalCastle at h
      rw [Bool.and_eq_true] at h
      obtain ⟨-, h⟩ := h
      split_ifs at h <;> simp_all
    · rw [Bool.and_eq_true] at h
      obtain ⟨hps, -⟩ := h
      by_cases hr : m.toSq < 0 ∨ 63 < m.toSq
      · simp only [pseudoNormal] at hps
        rw [if_pos hr] at hps
        simp at hps
      · omega

theorem squareOfPair_roundTrip {sq : Int} (h1 : 0 ≤ sq) (h2 : sq < 64) :
    squareOfPair (fI sq, rI sq) = sq := by
  simp only [squareOfPair, fI, rI]
  omega

theorem mkMoveOf_roundTrip {m : Move} (h1 : 0 ≤ m.fromSq) (h2 : m.fromSq < 64)
    (h3 : 0 ≤ m.toSq) (h4 : m.toSq < 64) :
    mkMoveOf (fI m.fromSq, rI m.fromSq) (fI m.toSq, rI m.toSq) m.promo = m := by
  unfold mkMoveOf
  rw [squareOfPair_roundTrip h1 h2, squareOfPair_roundTrip h3 h4]

theorem replay_ok_length (toks : List String) :
    ∀ g : ChessGame, (replay g toks).1 = LoadOutcome.ok →
      (replay g toks).2.board.stack.length = g.board.stack.length + toks.length := by
  induction toks with
  | nil => intro g _; simp [replay]
  | cons tok rest ih =>
    intro g hok
    simp only [replay] at hok ⊢
    cases hp : parseUci tok with
    | none => rw [hp] at hok; simp at hok
    | some m =>
      simp only [hp] at hok ⊢
      by_cases hl : isLegal g.board.core m = true
      · simp only [hl, if_true] at hok ⊢
        obtain ⟨q, hq⟩ := isLegal_pieceAt hl
        obtain ⟨hfa, hfb⟩ := pieceAt_some_range hq
        obtain ⟨hta, htb⟩ := isLegal_toSq_range hl
        have hm := mkMoveOf_roundTrip hfa hfb hta htb
        have hlen : (makeMove g (fI m.fromSq, rI m.fromSq) (fI m.toSq, rI m.toSq)
            m.promo).2.board.stack.length = g.board.stack.length + 1 := by
          rw [makeMove_legal_eq _ _ _ _ (by rw [hm]; exact hl)]
          simp [pushBoard]
        rw [ih _ hok, hlen]
        simp
        omega
      · rw [if_neg hl] at hok
        simp at hok

theorem replay_badFormat (toks : List String) :
    ∀ (g : ChessGame) (tok : String),
      (replay g toks).1 = LoadOutcome.badFormat tok →
      tok ∈ toks ∧ parseUci tok = none := by
  induction toks with
  | nil => intro g tok h; simp [replay] at h
  | cons t rest ih =>
    intro g tok h
    simp only [replay] at h
    cases hp : parseUci t with
    | none =>
      rw [hp] at h
      simp only [LoadOutcome.badFormat.injEq] at h
      subst h
      exact ⟨List.mem_cons_self t rest, hp⟩
    | some m =>
      simp only [hp] at h
      by_cases hl : isLegal g.board.core m = true
      · simp only [hl, if_true] at h
        obtain ⟨hmem, hp'⟩ := ih _ _ h
        exact ⟨List.mem_cons_of_mem t hmem, hp'⟩
      · rw [if_neg hl] at h
        simp at h

theorem replay_illegal (toks : List String) :
    ∀ (g : ChessGame) (tok : String),
      (replay g toks).1 = LoadOutcome.illegalMove tok →
      tok ∈ toks ∧ ∃ m, parseUci tok = some m ∧
        isLegal (replay g toks).2.board.core m = false := by
  induction toks with
  | nil => intro g tok h; simp [replay] at h
  | cons t rest ih =>
    intro g tok h
    simp only [replay] at h ⊢
    cases hp : parseUci t with
    | none => rw [hp] at h; simp at h
    | some m =>
      simp only [hp] at h ⊢
      by_cases hl : isLegal g.board.core m = true
      · simp only [hl, if_true] at h ⊢
        obtain ⟨hmem, m', hp', hleg⟩ := ih _ _ h
        exact ⟨List.mem_cons_of_mem t hmem, m', hp', hleg⟩
      · rw [if_neg hl] at h
        simp only [LoadOutcome.illegalMove.injEq] at h
        subst h
        rw [if_neg hl]
        refine ⟨List.mem_cons_self _ _, m, hp, ?_⟩
        simpa using hl

/-- Counterexample to C8 as stated: the claim's filter parses every
non-header, non-result token of length at least 4 as a UCI move, so a
file consisting of the single line `1.e4` would abort the load with
that token identified as unparseable — but the code additionally skips
any token with a `.` among its first three characters
(`not '.' in line[:3]`), so its load extracts nothing, applies nothing
and succeeds. -/
theorem load_token_filter_counterexample :
    extractMovesSpec "1.e4" = ["1.e4"] ∧
    parseUci "1.e4" = none ∧
    extractMoves "1.e4" = [] ∧
    (loadGame initialGame true "1.e4").1 = LoadOutcome.ok ∧
    (replay (newGame initialGame true) (extractMovesSpec "1.e4")).1
      = LoadOutcome.badFormat "1.e4" :=
  ⟨by decide, by decide, by decide, by decide, by decide⟩

/-- Claim C8 (amended): `load_game` skips header lines and known result
tokens, parses every remaining token of length at least 4 *that has no
dot among its first three characters* as a UCI move, and replays those
moves in order from the initial position; on success exactly the
extracted tokens are applied; at the first unparseable token the load
aborts identifying it; at the first illegal token the load aborts
identifying it, the replay done so far staying in place (the token is
illegal exactly in the returned partial position).  Loading a file of
header lines plus the token `e2e4` applies one move and yields the FEN
of a direct `make_move` of e2 to e4. -/
theorem load_game_behavior :
    (∀ (g : ChessGame) (startOk : Bool) (content : String),
      ((loadGame g startOk content).1 = LoadOutcome.ok →
        (loadGame g startOk content).2.board.stack.length
          = (extractMoves content).length) ∧
      (∀ tok, (loadGame g startOk content).1 = LoadOutcome.badFormat tok →
        tok ∈ extractMoves content ∧ parseUci tok = none) ∧
      (∀ tok, (loadGame g startOk content).1 = LoadOutcome.illegalMove tok →
        tok ∈ extractMoves content ∧
          ∃ m, parseUci tok = some m ∧
            isLegal (loadGame g startOk content).2.board.core m = false)) ∧
    ((loadGame initialGame true sampleImport).1 = LoadOutcome.ok ∧
     (loadGame initialGame true sampleImport).2.board.stack.length = 1 ∧
     fenOf (loadGame initialGame true sampleImport).2.board.core
       = fenOf (makeMove initialGame (4, 1) (4, 3) none).2.board.core) := by
  constructor
  · intro g startOk content
    refine ⟨?_, ?_, ?_⟩
    · intro hok
      unfold loadGame at hok ⊢
      rw [replay_ok_length _ _ hok, newGame_board]
      simp [initialBoard]
    · intro tok h
      unfold loadGame at h
      exact replay_badFormat _ _ _ h
    · intro tok h
      unfold loadGame at h ⊢
      exact replay_illegal _ _ _ h
  · exact ⟨by decide, by decide, by decide⟩

/-- Witness for C8 (amended): loading the bare token `e2e4` applies
exactly the one extracted move. -/
theorem load_game_behavior_witness :
    (loadGame initialGame true "e2e4").2.board.stack.length
      = (extractMoves "e2e4").length :=
  (load_game_behavior.1 initialGame true "e2e4").1 (by decide)

/-! ### C10 -/

/-- Claim C10: `new_game` resets the session to the initial position
with an empty move log, no selection, no last move, `engine_thinking`
and `engine_battle_active` false, while leaving game mode, player
color, engine time budget and engine skill level exactly as they were
(for either outcome of the engine restart). -/
theorem new_game_resets (g : ChessGame) (startOk : Bool) :
    (newGame g startOk).board = initialBoard ∧
    (newGame g startOk).moveHistory = [] ∧
    (newGame g startOk).selectedSquare = none ∧
    (newGame g startOk).lastMove = none ∧
    (newGame g startOk).engineThinking = false ∧
    (newGame g startOk).engineBattleActive = false ∧
    (newGame g startOk).gameMode = g.gameMode ∧
    (newGame g startOk).playerColor = g.playerColor ∧
    (newGame g startOk).engineTimeLimit = g.engineTimeLimit ∧
    (newGame g startOk).engineLevel = g.engineLevel := by
  unfold newGame startEngines
  by_cases h : g.engineReady <;> cases startOk <;> simp [h]

end Chess3
